import Mathlib

/- Formal model of the wemux realtime audio pipeline core: the
   distribution ring buffer, master/slave clock synchronization, device
   monitor event handling, the audio engine facade, the HDMI device
   filter and the volume path.  Each definition is a shallow embedding
   of the corresponding Rust item; machine-word wrapping arithmetic is
   made explicit as arithmetic modulo `2 ^ 64`. -/

/-- Width of the machine word: on the target platform `usize` and `u64`
are 64 bits wide, and wrapping arithmetic is arithmetic modulo
`2 ^ 64`. -/
def USIZE : Nat := 2 ^ 64

/-- Model of `usize::wrapping_sub` / `u64::wrapping_sub`.  Stored
positions are always `< USIZE`. -/
def wrapping_sub (a b : Nat) : Nat := (a + (USIZE - b % USIZE)) % USIZE

/-- Doubling loop behind `next_power_of_two`: grows `power` until it
reaches `n`.  The fuel argument makes the recursion structural; `n`
steps are always enough because `n < 2 ^ n`. -/
def next_pow_two_go (n : Nat) : Nat → Nat → Nat
  | 0, power => power
  | fuel + 1, power => if power < n then next_pow_two_go n fuel (power * 2) else power

/-- Model of `usize::next_power_of_two`: the smallest power of two that
is at least `n` (`0` and `1` both map to `1`). -/
def next_power_of_two (n : Nat) : Nat := next_pow_two_go n n 1

/-- Model of `RingBuffer` (`src/audio/buffer.rs`): a byte buffer of
power-of-two capacity, a single writer position and a bit mask used for
index reduction.  Bytes are natural numbers, the backing storage a list
of length `capacity`. -/
structure RingBuffer where
  buffer : List Nat
  capacity : Nat
  write_pos : Nat
  mask : Nat
deriving DecidableEq

/-- Model of `RingBuffer::new`: capacity is rounded up to the next
power of two, the mask is `capacity - 1`, storage is zeroed. -/
def RingBuffer.new (capacity : Nat) : RingBuffer :=
  let capacity := next_power_of_two capacity
  let mask := capacity - 1
  { buffer := List.replicate capacity 0
    capacity := capacity
    write_pos := 0
    mask := mask }

/-- Model of `RingBuffer::capacity`. -/
def RingBuffer.capacity_fn (rb : RingBuffer) : Nat := rb.capacity

/-- Model of `RingBuffer::write_position`. -/
def RingBuffer.write_position (rb : RingBuffer) : Nat := rb.write_pos

/-- Byte-store loop of `RingBuffer::write`: byte `i` of `data` is
stored at index `(write_pos + i) & mask`. -/
def write_bytes (mask write_pos : Nat) : List Nat → Nat → List Nat → List Nat
  | [], _, buffer => buffer
  | byte :: rest, i, buffer =>
      write_bytes mask write_pos rest (i + 1)
        (buffer.set (((write_pos + i) % USIZE) &&& mask) byte)

/-- Model of `RingBuffer::write`: stores every byte of `data` (always
succeeding, overwriting old data) and advances the writer position by
`data.len()` with wrapping. -/
def RingBuffer.write (rb : RingBuffer) (data : List Nat) : RingBuffer :=
  { rb with
    buffer := write_bytes rb.mask rb.write_pos data 0 rb.buffer
    write_pos := (rb.write_pos + data.length) % USIZE }

/-- Byte-load loop of `RingBuffer::read`: byte `i` of the result comes
from index `(read_pos + i) & mask`. -/
def read_bytes (rb : RingBuffer) (read_pos to_read : Nat) : List Nat :=
  (List.range to_read).map fun i =>
    rb.buffer.getD (((read_pos + i) % USIZE) &&& rb.mask) 0

/-- Model of `RingBuffer::read`: reads
`min(buf.len(), write_pos - read_pos, capacity)` bytes starting at the
caller-owned reader position and returns them together with the
advanced reader position. -/
def RingBuffer.read (rb : RingBuffer) (buf_len read_pos : Nat) : List Nat × Nat :=
  let available := wrapping_sub rb.write_pos read_pos
  let to_read := min (min buf_len available) rb.capacity
  (read_bytes rb read_pos to_read, (read_pos + to_read) % USIZE)

/-- Model of `RingBuffer::available`. -/
def RingBuffer.available (rb : RingBuffer) (read_pos : Nat) : Nat :=
  min (wrapping_sub rb.write_pos read_pos) rb.capacity

/-- Model of `RingBuffer::is_lagging`. -/
def RingBuffer.is_lagging (rb : RingBuffer) (read_pos : Nat) : Bool :=
  rb.capacity < wrapping_sub rb.write_pos read_pos

/-- Model of `RingBuffer::catch_up`: the refreshed reader position. -/
def RingBuffer.catch_up (rb : RingBuffer) : Nat := rb.write_pos

/-- One step of a single-writer single-reader session against the
ring: either the producer writes a byte batch or the reader reads into
a destination buffer of the given length. -/
inductive RingOp where
  | write (data : List Nat)
  | read (len : Nat)
deriving DecidableEq

/-- State of a reader session: the ring, the reader position created at
subscribe time, the bytes the producer wrote after subscribe, and the
concatenation of all bytes returned by reads. -/
structure RingTrace where
  rb : RingBuffer
  read_pos : Nat
  written : List Nat
  read_out : List Nat
deriving DecidableEq

/-- Execute one operation of a session. -/
def ring_step (s : RingTrace) : RingOp → RingTrace
  | .write data => { s with rb := s.rb.write data, written := s.written ++ data }
  | .read len =>
      let r := s.rb.read len s.read_pos
      { s with read_pos := r.2, read_out := s.read_out ++ r.1 }

/-- Execute a whole session. -/
def ring_run (s : RingTrace) : List RingOp → RingTrace
  | [] => s
  | op :: ops => ring_run (ring_step s op) ops

/-- Subscribe a reader: its position starts at the current writer
position (`ReaderState::new`). -/
def ring_subscribe (rb : RingBuffer) : RingTrace :=
  { rb := rb, read_pos := rb.write_pos, written := [], read_out := [] }

/-- Total number of bytes written by the operations of a session. -/
def total_written : List RingOp → Nat
  | [] => 0
  | .write data :: ops => data.length + total_written ops
  | .read _ :: ops => total_written ops

/-- The reader never lags: after every step of the session the writer
position is at most `capacity` bytes ahead of the reader position. -/
def no_lag_along (s : RingTrace) : List RingOp → Bool
  | [] => true
  | op :: ops =>
      let t := ring_step s op
      decide (wrapping_sub t.rb.write_pos t.read_pos ≤ t.rb.capacity) && no_lag_along t ops

/-- Session invariant for one reader subscribed at ghost writer
position `w0`: the ring's writer position and the reader position track
the ghost byte counts, every byte the reader has returned is the next
byte of the written stream, and the live window of the ring holds the
most recent written bytes. -/
structure RingInv (k w0 : Nat) (s : RingTrace) : Prop where
  cap_eq : s.rb.capacity = 2 ^ k
  k_le : k ≤ 64
  mask_eq : s.rb.mask = 2 ^ k - 1
  len_eq : s.rb.buffer.length = 2 ^ k
  bound : w0 + s.written.length < USIZE
  wp_eq : s.rb.write_pos = w0 + s.written.length
  rp_eq : s.read_pos = w0 + s.read_out.length
  tr_le : s.read_out.length ≤ s.written.length
  out_eq : s.read_out = s.written.take s.read_out.length
  contents : ∀ j, j < s.written.length → s.written.length ≤ j + 2 ^ k →
      s.rb.buffer.getD ((w0 + j) % 2 ^ k) 0 = s.written.getD j 0

/-- Association-list model of `HashMap` lookup (`HashMap::get`). -/
def assoc_get {κ α : Type} [DecidableEq κ] (m : List (κ × α)) (id : κ) : Option α :=
  (m.find? fun p => decide (p.1 = id)).map (·.2)

/-- Association-list model of `HashMap::remove`. -/
def assoc_remove {κ α : Type} [DecidableEq κ] (m : List (κ × α)) (id : κ) : List (κ × α) :=
  m.filter fun p => decide (p.1 ≠ id)

/-- Association-list model of `HashMap::insert` (replaces any previous
binding of the key). -/
def assoc_insert {κ α : Type} [DecidableEq κ] (m : List (κ × α)) (id : κ) (v : α) :
    List (κ × α) :=
  assoc_remove m id ++ [(id, v)]

/-- Association-list model of `HashMap::get_mut`-style in-place update:
applies `f` to the value bound to `id`, leaving the map unchanged when
the key is absent. -/
def assoc_modify {κ α : Type} [DecidableEq κ] (m : List (κ × α)) (id : κ) (f : α → α) :
    List (κ × α) :=
  m.map fun p => if p.1 = id then (p.1, f p.2) else p

/-- Threshold in samples before applying drift correction
(`src/sync/clock.rs`). -/
def DRIFT_THRESHOLD_SAMPLES : Int := 240

/-- Maximum correction per update. -/
def MAX_CORRECTION_SAMPLES : Int := 48

/-- Reinterpretation of a 64-bit unsigned value as `i64`
(`u64 as i64`). -/
def to_i64 (n : Nat) : Int :=
  if n < 2 ^ 63 then (n : Int) else (n : Int) - 2 ^ 64

/-- Model of `SlaveState` (`src/sync/clock.rs`).  Wall-clock instants
are abstract naturals. -/
structure SlaveState where
  last_position : Nat
  drift_samples : Int
  last_sync : Nat
  pending_correction : Int
deriving DecidableEq

/-- Model of `ClockSync` (`src/sync/clock.rs`): master id, master
reference position, last update instant, per-slave map and sample
rate. -/
structure ClockSync where
  master_id : Option String
  master_position : Nat
  last_update : Nat
  slaves : List (String × SlaveState)
  sample_rate : Nat
deriving DecidableEq

/-- Model of `ClockSync::new`. -/
def ClockSync.new (sample_rate : Nat) (now : Nat) : ClockSync :=
  { master_id := none
    master_position := 0
    last_update := now
    slaves := []
    sample_rate := sample_rate }

/-- Model of `ClockSync::set_master`. -/
def ClockSync.set_master (s : ClockSync) (device_id : String) (now : Nat) : ClockSync :=
  { s with master_id := some device_id, master_position := 0, last_update := now }

/-- Model of `ClockSync::register_slave`: a no-op when the id is the
current master, otherwise inserts a fresh slave state. -/
def ClockSync.register_slave (s : ClockSync) (device_id : String) (now : Nat) : ClockSync :=
  if some device_id = s.master_id then s
  else
    let fresh : SlaveState :=
      { last_position := 0, drift_samples := 0, last_sync := now,
        pending_correction := 0 }
    { s with slaves := assoc_insert s.slaves device_id fresh }

/-- Model of `ClockSync::remove_slave`. -/
def ClockSync.remove_slave (s : ClockSync) (device_id : String) : ClockSync :=
  { s with slaves := assoc_remove s.slaves device_id }

/-- Model of `ClockSync::update_master`. -/
def ClockSync.update_master (s : ClockSync) (position : Nat) (now : Nat) : ClockSync :=
  { s with master_position := position, last_update := now }

/-- Model of `ClockSync::update_slave`.  The host computes
`elapsed_samples = (now - last_sync).as_secs_f64() * sample_rate as i64`
from the wall clock; the wall clock and the `f64` rounding are outside
the embedding, so the already-computed `elapsed_samples` is an input.
The rest follows the source: wrap-safe actual movement, the 7/8
exponential smoothing of the drift, and the thresholded, magnitude-
capped pending correction. -/
def ClockSync.update_slave (s : ClockSync) (device_id : String) (position : Nat)
    (now : Nat) (elapsed_samples : Int) : ClockSync :=
  { s with slaves := assoc_modify s.slaves device_id fun slave =>
      let actual_movement : Int := to_i64 (wrapping_sub position slave.last_position)
      let drift_delta := actual_movement - elapsed_samples
      let drift_samples := (slave.drift_samples * 7 + drift_delta).tdiv 8
      let pending_correction :=
        if DRIFT_THRESHOLD_SAMPLES < |drift_samples| then
          drift_samples.sign * min |drift_samples| MAX_CORRECTION_SAMPLES
        else 0
      { last_position := position, drift_samples := drift_samples,
        last_sync := now, pending_correction := pending_correction } }

/-- Model of `ClockSync::get_correction_readonly`. -/
def ClockSync.get_correction_readonly (s : ClockSync) (device_id : String) : Int :=
  match assoc_get s.slaves device_id with
  | some slave => slave.pending_correction
  | none => 0

/-- Model of `ClockSync::apply_correction`. -/
def ClockSync.apply_correction (s : ClockSync) (device_id : String) : ClockSync :=
  match assoc_get s.slaves device_id with
  | some slave =>
      if slave.pending_correction ≠ 0 then
        let upd : SlaveState → SlaveState := fun sl =>
          { sl with
            drift_samples := sl.drift_samples - sl.pending_correction
            pending_correction := 0 }
        { s with slaves := assoc_modify s.slaves device_id upd }
      else s
  | none => s

/-- Model of `ClockSync::get_correction` (the mutating version used by
the render thread): returns the pending correction and, when nonzero,
subtracts it from the tracked drift and clears it. -/
def ClockSync.get_correction (s : ClockSync) (device_id : String) : Int × ClockSync :=
  match assoc_get s.slaves device_id with
  | some slave =>
      if slave.pending_correction ≠ 0 then
        let upd : SlaveState → SlaveState := fun sl =>
          { sl with
            drift_samples := sl.drift_samples - sl.pending_correction
            pending_correction := 0 }
        (slave.pending_correction,
          { s with slaves := assoc_modify s.slaves device_id upd })
      else (slave.pending_correction, s)
  | none => (0, s)

/-- Model of `ClockSync::is_master`. -/
def ClockSync.is_master (s : ClockSync) (device_id : String) : Bool :=
  decide (s.master_id = some device_id)

/-- Mutating operations of the `ClockSync` public interface, used to
describe reachable states. -/
inductive ClockOp where
  | set_master (device_id : String) (now : Nat)
  | register_slave (device_id : String) (now : Nat)
  | remove_slave (device_id : String)
  | update_master (position : Nat) (now : Nat)
  | update_slave (device_id : String) (position : Nat) (now : Nat) (elapsed_samples : Int)
  | get_correction (device_id : String)
  | apply_correction (device_id : String)
deriving DecidableEq

/-- Apply one mutating operation. -/
def clock_apply (s : ClockSync) : ClockOp → ClockSync
  | .set_master id now => s.set_master id now
  | .register_slave id now => s.register_slave id now
  | .remove_slave id => s.remove_slave id
  | .update_master pos now => s.update_master pos now
  | .update_slave id pos now elapsed => s.update_slave id pos now elapsed
  | .get_correction id => (s.get_correction id).2
  | .apply_correction id => s.apply_correction id

/-- Apply a sequence of mutating operations. -/
def clock_run (s : ClockSync) : List ClockOp → ClockSync
  | [] => s
  | op :: ops => clock_run (clock_apply s op) ops

/-- Every pending correction stored in the slave map is at most
`MAX_CORRECTION_SAMPLES` in magnitude. -/
def pending_bounded (s : ClockSync) : Prop :=
  ∀ id slave, assoc_get s.slaves id = some slave →
    |slave.pending_correction| ≤ MAX_CORRECTION_SAMPLES

/-- A trace contains no `set_master` operation. -/
def no_set_master : List ClockOp → Bool
  | [] => true
  | .set_master _ _ :: _ => false
  | _ :: ops => no_set_master ops

/-- The disciplined master invariant: `m` is the master and is absent
from the slave map. -/
def master_ok (m : String) (s : ClockSync) : Prop :=
  s.master_id = some m ∧ assoc_get s.slaves m = none

/-- Model of `DeviceEvent` (`src/device/monitor.rs`). -/
inductive DeviceEvent where
  | added (device_id : String)
  | removed (device_id : String)
  | default_changed (data_flow : Int) (role : Int) (device_id : String)
  | state_changed (device_id : String) (new_state : Nat)
  | property_changed (device_id : String)
deriving DecidableEq

/-- Model of the capture-thread command enum (`src/audio/engine.rs`). -/
inductive CaptureCommand where
  | reinitialize
deriving DecidableEq

/-- Model of `EngineEvent` (`src/audio/engine.rs`). -/
inductive EngineEvent where
  | default_device_changed
deriving DecidableEq

/-- Shared state touched by the device monitor thread: the published
current default endpoint id and the paused flag of every adopted
renderer control. -/
structure MonitorShared where
  current_default_id : Option String
  renderer_controls : List (String × Bool)
deriving DecidableEq

/-- One iteration of `device_monitor_thread` handling one received
event.  For `DefaultChanged` with render data flow (`data_flow = 0`)
it publishes the new default id, sends `Reinitialize` to the capture
worker, forwards the event to the volume thread, pauses the renderer
whose id equals the new default (the loop body `if id == device_id`
is the in-place update of that one entry) and emits
`DefaultDeviceChanged`; all other events, and non-render flows, change
nothing.  Returns the new shared state, the capture commands sent, the
events forwarded to the volume thread and the engine events emitted. -/
def handle_device_event (st : MonitorShared) (ev : DeviceEvent) :
    MonitorShared × List CaptureCommand × List DeviceEvent × List EngineEvent :=
  match ev with
  | .default_changed data_flow _ device_id =>
      if data_flow = 0 then
        ({ current_default_id := some device_id
           renderer_controls := assoc_modify st.renderer_controls device_id fun _ => true },
          [CaptureCommand.reinitialize], [ev], [EngineEvent.default_device_changed])
      else (st, [], [], [])
  | _ => (st, [], [], [])

/-- Lowercasing of a name, `str::to_lowercase` restricted to the
per-character mapping (all keywords are ASCII). -/
def lowercase (s : List Char) : List Char := s.map Char.toLower

/-- Model of `HDMI_KEYWORDS` (`src/device/filter.rs`). -/
def HDMI_KEYWORDS : List (List Char) :=
  ["hdmi".toList, "nvidia high definition audio".toList,
    "intel(r) display audio".toList, "amd high definition audio".toList,
    "display audio".toList]

/-- Model of `HdmiFilter::is_hdmi_device`: the lowercased name contains
one of the keywords. -/
def HdmiFilter.is_hdmi_device (name : List Char) : Bool :=
  HDMI_KEYWORDS.any fun keyword => decide (keyword <:+: lowercase name)

/-- Model of `HdmiFilter::is_hdmi_device_id`: the lowercased id
contains "hdmi" or "display". -/
def HdmiFilter.is_hdmi_device_id (device_id : List Char) : Bool :=
  decide ("hdmi".toList <:+: lowercase device_id) ||
    decide ("display".toList <:+: lowercase device_id)

/-- Model of `DeviceInfo` (`src/device/enumerator.rs`). -/
structure DeviceInfo where
  id : List Char
  name : List Char
  is_hdmi : Bool
  is_default : Bool
deriving DecidableEq

/-- Model of `DeviceEnumerator::get_device_info`: the `is_hdmi` flag is
computed from name and id, `is_default` by comparison with the cached
default id. -/
def get_device_info (id name : List Char) (default_device_id : Option (List Char)) :
    DeviceInfo :=
  { id := id
    name := name
    is_hdmi := HdmiFilter.is_hdmi_device name || HdmiFilter.is_hdmi_device_id id
    is_default := match default_device_id with
      | some d => decide (d = id)
      | none => false }

/-- Model of `WemuxError` (`src/error.rs`), restricted to the variants
the embedded operations produce. -/
inductive WemuxError where
  | device_not_found (device_id : List Char)
  | no_hdmi_devices
  | already_running
  | capture_open_failed
deriving DecidableEq

/-- Model of `DeviceEnumerator::enumerate_hdmi_devices`: the active
render endpoints whose `is_hdmi` flag is set; an error when none
remain. -/
def enumerate_hdmi_devices (all_devices : List DeviceInfo) :
    Except WemuxError (List DeviceInfo) :=
  let hdmi_devices := all_devices.filter (·.is_hdmi)
  if hdmi_devices.isEmpty then Except.error WemuxError.no_hdmi_devices
  else Except.ok hdmi_devices

/-- Model of `EngineConfig` (`src/audio/engine.rs`); strings are
character lists so that substring matching is explicit. -/
structure EngineConfig where
  buffer_ms : Nat
  device_ids : Option (List (List Char))
  exclude_ids : Option (List (List Char))
  source_device_id : Option (List Char)
  paused_device_ids : Option (List (List Char))
  use_all_devices : Bool
deriving DecidableEq

/-- Model of `EngineConfig::default`. -/
def EngineConfig.default_config : EngineConfig :=
  { buffer_ms := 50
    device_ids := none
    exclude_ids := none
    source_device_id := none
    paused_device_ids := none
    use_all_devices := false }

/-- Model of `AudioEngine::get_target_devices`: an explicit allow-list
is substring-matched against id or name; otherwise either all devices
(`use_all_devices`) or the HDMI-filtered devices
(`enumerate_hdmi_devices().unwrap_or_default()`); the deny-list is
applied last with the same substring rule. -/
def get_target_devices (cfg : EngineConfig) (all_devices : List DeviceInfo) :
    List DeviceInfo :=
  let devices :=
    match cfg.device_ids with
    | some ids => all_devices.filter fun d =>
        ids.any fun id => decide (id <:+: d.id) || decide (id <:+: d.name)
    | none =>
        if cfg.use_all_devices then all_devices
        else (enumerate_hdmi_devices all_devices).toOption.getD []
  match cfg.exclude_ids with
  | some excludes => devices.filter fun d =>
      ! excludes.any fun ex => decide (ex <:+: d.id) || decide (ex <:+: d.name)
  | none => devices

/-- Model of `AudioFormat` (`src/audio/mod.rs`). -/
structure AudioFormat where
  sample_rate : Nat
  channels : Nat
  bits_per_sample : Nat
  block_align : Nat
deriving DecidableEq

/-- Model of `AudioFormat::bytes_per_second`. -/
def AudioFormat.bytes_per_second (f : AudioFormat) : Nat :=
  f.sample_rate * f.block_align

/-- Model of `AudioFormat::buffer_size_for_ms`. -/
def AudioFormat.buffer_size_for_ms (f : AudioFormat) (ms : Nat) : Nat :=
  f.bytes_per_second * ms / 1000

/-- Model of `LatencyClass` (`src/audio/hardware.rs`). -/
inductive LatencyClass where
  | low_latency
  | standard
  | high_latency
deriving DecidableEq

/-- Model of `LatencyClass::wasapi_buffer_ms`. -/
def LatencyClass.wasapi_buffer_ms : LatencyClass → Nat
  | .low_latency => 25
  | .standard => 35
  | .high_latency => 50

/-- Model of `LatencyClass::ring_buffer_base_ms`. -/
def LatencyClass.ring_buffer_base_ms : LatencyClass → Nat
  | .low_latency => 200
  | .standard => 300
  | .high_latency => 400

/-- Model of `HardwareCapabilities` (`src/audio/hardware.rs`). -/
structure HardwareCapabilities where
  min_period : Int
  default_period : Int
  latency_class : LatencyClass
deriving DecidableEq

/-- Model of `HardwareCapabilities::optimal_ring_buffer_ms`: the class
base plus a 25 ms margin per renderer. -/
def HardwareCapabilities.optimal_ring_buffer_ms (caps : HardwareCapabilities)
    (num_renderers : Nat) : Nat :=
  caps.latency_class.ring_buffer_base_ms + num_renderers * 25

/-- Model of `EngineState` (`src/audio/engine.rs`). -/
inductive EngineState where
  | uninitialized
  | stopped
  | running
  | shutting_down
deriving DecidableEq

/-- Model of the `AudioEngine` facade state (`src/audio/engine.rs`).
Thread handles and channel endpoints are tracked as booleans/counters
(present or not); the clock-sync instance lives inside the render
threads and is modelled separately by `ClockSync`. -/
structure AudioEngine where
  config : EngineConfig
  state : EngineState
  stop_flag : Bool
  capture_handle : Bool
  render_handles : Nat
  command_tx : Bool
  buffer : Option RingBuffer
  format : Option AudioFormat
  volume_handle : Bool
  device_monitor : Bool
  monitor_handle : Bool
  renderer_controls : List (List Char × Bool)
  capture_cmd_tx : Bool
  current_default_id : Option (List Char)
  device_names : List (List Char × List Char)
deriving DecidableEq

/-- Model of `AudioEngine::new`. -/
def AudioEngine.new (config : EngineConfig) : AudioEngine :=
  { config := config
    state := EngineState.uninitialized
    stop_flag := false
    capture_handle := false
    render_handles := 0
    command_tx := false
    buffer := none
    format := none
    volume_handle := false
    device_monitor := false
    monitor_handle := false
    renderer_controls := []
    capture_cmd_tx := false
    current_default_id := none
    device_names := [] }

/-- Model of `AudioEngine::should_device_start_paused`. -/
def AudioEngine.should_device_start_paused (e : AudioEngine) (device_id : List Char) :
    Bool :=
  match e.config.paused_device_ids with
  | some paused_ids => paused_ids.any fun id => decide (id = device_id)
  | none => false

/-- Host responses consumed by `AudioEngine::start`: the format of the
loopback capture opened on the default device (`none` models an open
failure) and the enumerated active render endpoints with the current
default render id. -/
structure HostEnv where
  capture_format : Option AudioFormat
  all_devices : List DeviceInfo
  default_render_id : Option (List Char)
deriving DecidableEq

/-- Model of `AudioEngine::start`: refuses when already `Running`
(without any state change); otherwise clears the stop flag, opens the
capture to learn the format, allocates a ring buffer sized for 500 ms
of audio at that format, resolves the target devices (failing with
`NoHdmiDevices` when none), publishes the current default id, spawns
the worker threads (one renderer per target device, the first device
becoming clock master), seeds each renderer control's paused flag
(paused when it is the default output or configured paused) and enters
`Running`. -/
def AudioEngine.start (e : AudioEngine) (host : HostEnv) :
    Except WemuxError Unit × AudioEngine :=
  if e.state = EngineState.running then
    (Except.error WemuxError.already_running, e)
  else
    let e1 := { e with stop_flag := false }
    match host.capture_format with
    | none => (Except.error WemuxError.capture_open_failed, e1)
    | some format =>
        let buffer := RingBuffer.new (format.buffer_size_for_ms 500)
        let e2 := { e1 with format := some format, buffer := some buffer }
        let target_devices := get_target_devices e.config host.all_devices
        if target_devices.isEmpty then (Except.error WemuxError.no_hdmi_devices, e2)
        else
          let pause_flag := fun (d : DeviceInfo) =>
            (match host.default_render_id with
              | some id => decide (id = d.id)
              | none => false) || e.should_device_start_paused d.id
          let e3 :=
            { e2 with
              command_tx := true
              capture_cmd_tx := true
              capture_handle := true
              device_monitor := true
              volume_handle := true
              monitor_handle := true
              current_default_id := host.default_render_id
              renderer_controls := target_devices.foldl
                (fun acc d => assoc_insert acc d.id (pause_flag d)) []
              device_names := target_devices.foldl
                (fun acc d => assoc_insert acc d.id d.name) []
              render_handles := target_devices.length
              state := EngineState.running }
          (Except.ok (), e3)

/-- Model of `AudioEngine::stop`: a no-op success unless `Running`;
otherwise passes through `ShuttingDown`, sets the stop flag, joins and
clears every worker and channel, clears buffer, format, controls,
names and current default, and ends `Stopped`. -/
def AudioEngine.stop (e : AudioEngine) : Except WemuxError Unit × AudioEngine :=
  if e.state ≠ EngineState.running then (Except.ok (), e)
  else
    (Except.ok (),
      { e with
        state := EngineState.stopped
        stop_flag := true
        capture_handle := false
        render_handles := 0
        command_tx := false
        buffer := none
        format := none
        volume_handle := false
        device_monitor := false
        monitor_handle := false
        renderer_controls := []
        capture_cmd_tx := false
        current_default_id := none
        device_names := [] })

/-- Model of `f32::EPSILON` as an exact rational; `f32` sample values
are modelled as exact rationals throughout the volume path. -/
def F32_EPSILON : Rat := 1 / 2 ^ 23

/-- Model of `VolumeLevel` (`src/audio/volume.rs`): an atomically
shared volume scalar; the `AtomicU32` bit packing is lossless, so the
cell is its stored value. -/
structure VolumeLevel where
  bits : Rat
deriving DecidableEq

/-- Model of `VolumeLevel::new`: full volume. -/
def VolumeLevel.new : VolumeLevel := { bits := 1 }

/-- Model of `VolumeLevel::get`. -/
def VolumeLevel.get (l : VolumeLevel) : Rat := l.bits

/-- Model of `f32::clamp(0.0, 1.0)` on finite values. -/
def clamp01 (v : Rat) : Rat :=
  if v < 0 then 0 else if 1 < v then 1 else v

/-- Model of `VolumeLevel::set`: stores the clamped volume. -/
def VolumeLevel.set (l : VolumeLevel) (volume : Rat) : VolumeLevel :=
  { l with bits := clamp01 volume }

/-- Host responses consumed by the volume tracker: the endpoint's mute
flag and master-volume scalar. -/
structure VolumeTracker where
  muted : Bool
  master_volume_scalar : Rat
deriving DecidableEq

/-- Model of `VolumeTracker::get_volume`. -/
def VolumeTracker.get_volume (t : VolumeTracker) : Rat := t.master_volume_scalar

/-- Model of `VolumeTracker::is_muted`. -/
def VolumeTracker.is_muted (t : VolumeTracker) : Bool := t.muted

/-- Model of `VolumeTracker::get_effective_volume`: 0 when muted,
otherwise the master volume. -/
def VolumeTracker.get_effective_volume (t : VolumeTracker) : Rat :=
  if t.is_muted then 0 else t.get_volume

/-- Model of `apply_volume_f32` (`src/audio/volume.rs`) at sample
granularity: when `|volume - 1| < f32::EPSILON` the early exit leaves
the data untouched (bit-for-bit, the scaling loop never runs);
otherwise every 32-bit float sample is multiplied by `volume`. -/
def apply_volume_f32 (data : List Rat) (volume : Rat) : List Rat :=
  if |volume - 1| < F32_EPSILON then data
  else data.map fun sample => sample * volume

/-- Keyword set as the specification words it (refinement reference):
the spec writes "intel display audio" where the code has
"intel(r) display audio". -/
def SPEC_HDMI_KEYWORDS : List (List Char) :=
  ["hdmi".toList, "nvidia high definition audio".toList,
    "intel display audio".toList, "amd high definition audio".toList,
    "display audio".toList]

/-- The adoption condition exactly as the specification words it: the
lowercased name contains a member of the spec keyword set, or the
lowercased id contains "hdmi" or "display". -/
def spec_hdmi_adopted (d : DeviceInfo) : Bool :=
  (SPEC_HDMI_KEYWORDS.any fun keyword => decide (keyword <:+: lowercase d.name))
    || decide ("hdmi".toList <:+: lowercase d.id)
    || decide ("display".toList <:+: lowercase d.id)

/-- Masking with `2 ^ k - 1` after a 64-bit wrap is reduction modulo
`2 ^ k`, provided `k ≤ 64`. -/
theorem mask_mod {k : Nat} (hk : k ≤ 64) (x : Nat) :
    ((x % USIZE) &&& (2 ^ k - 1)) = x % 2 ^ k := by
  rw [Nat.and_pow_two_sub_one_eq_mod]
  exact Nat.mod_mod_of_dvd x (Nat.pow_dvd_pow 2 hk)

/-- Wrapping subtraction is exact subtraction when no wrap occurred. -/
theorem wrapping_sub_eq {a b : Nat} (hba : b ≤ a) (ha : a < USIZE) :
    wrapping_sub a b = a - b := by
  unfold wrapping_sub
  rw [Nat.mod_eq_of_lt (lt_of_le_of_lt hba ha)]
  have h1 : a + (USIZE - b) = USIZE + (a - b) := by omega
  rw [h1, Nat.add_mod_left]
  exact Nat.mod_eq_of_lt (by omega)

/-- Reading a just-set element with default. -/
theorem getD_set_self {l : List Nat} {p : Nat} (a : Nat) (h : p < l.length) :
    (l.set p a).getD p 0 = a := by
  rw [List.getD_eq_getElem?_getD, List.getElem?_set]
  simp [h]

/-- Setting one element leaves the others unchanged. -/
theorem getD_set_ne {l : List Nat} {p q : Nat} (a : Nat) (h : p ≠ q) :
    (l.set p a).getD q 0 = l.getD q 0 := by
  rw [List.getD_eq_getElem?_getD, List.getElem?_set]
  simp [h, List.getD_eq_getElem?_getD]

/-- Adding a positive amount smaller than the modulus changes the
residue. -/
theorem add_mod_ne {n : Nat} (a : Nat) {d : Nat} (h0 : 0 < d) (h1 : d < n) :
    (a + d) % n ≠ a % n := by
  intro h
  have h2 : d ≡ 0 [MOD n] := by
    have h3 : a + d ≡ a + 0 [MOD n] := by
      simpa [Nat.ModEq] using h
    exact Nat.ModEq.add_left_cancel' a h3
  have h4 : d % n = 0 := by simpa [Nat.ModEq] using h2
  rw [Nat.mod_eq_of_lt h1] at h4
  omega

/-- Storing bytes preserves the storage length. -/
theorem write_bytes_length (mask wp : Nat) :
    ∀ (data : List Nat) (i : Nat) (buffer : List Nat),
      (write_bytes mask wp data i buffer).length = buffer.length := by
  intro data
  induction data with
  | nil => intro i buffer; rfl
  | cons b rest ih =>
      intro i buffer
      rw [write_bytes, ih, List.length_set]

/-- Indices not targeted by a store loop keep their contents. -/
theorem write_bytes_getD_of_notin {k : Nat} (hk : k ≤ 64) (wp : Nat) :
    ∀ (data : List Nat) (i : Nat) (buffer : List Nat) (q : Nat),
      (∀ m, m < data.length → (wp + i + m) % 2 ^ k ≠ q) →
      (write_bytes (2 ^ k - 1) wp data i buffer).getD q 0 = buffer.getD q 0 := by
  intro data
  induction data with
  | nil => intro i buffer q _; rfl
  | cons b rest ih =>
      intro i buffer q hq
      rw [write_bytes, mask_mod hk]
      have hrest : ∀ m, m < rest.length → (wp + (i + 1) + m) % 2 ^ k ≠ q := by
        intro m hm
        have hadd : wp + (i + 1) + m = wp + i + (m + 1) := by omega
        rw [hadd]
        exact hq (m + 1) (by simpa using Nat.succ_lt_succ hm)
      rw [ih (i + 1) _ q hrest]
      exact getD_set_ne b (by simpa using hq 0 (by simp))

/-- A store loop of at most `2 ^ k` bytes delivers byte `m` of `data`
to index `(wp + i + m) % 2 ^ k`. -/
theorem write_bytes_getD_of_hit {k : Nat} (hk : k ≤ 64) (wp : Nat) :
    ∀ (data : List Nat) (i : Nat) (buffer : List Nat) (m : Nat),
      buffer.length = 2 ^ k → data.length ≤ 2 ^ k → m < data.length →
      (write_bytes (2 ^ k - 1) wp data i buffer).getD ((wp + i + m) % 2 ^ k) 0 =
        data.getD m 0 := by
  intro data
  induction data with
  | nil => intro i buffer m _ _ hm; exact absurd hm (by simp)
  | cons b rest ih =>
      intro i buffer m hlen hsz hm
      rw [write_bytes, mask_mod hk]
      have hpos : 0 < 2 ^ k := Nat.pos_pow_of_pos k (by omega)
      cases m with
      | zero =>
          have hnotin : ∀ m', m' < rest.length →
              (wp + (i + 1) + m') % 2 ^ k ≠ (wp + i + 0) % 2 ^ k := by
            intro m' hm'
            have hadd : wp + (i + 1) + m' = (wp + i + 0) + (1 + m') := by omega
            rw [hadd]
            apply add_mod_ne
            · omega
            · have hr : rest.length ≤ 2 ^ k - 1 := by
                simp at hsz
                omega
              omega
          rw [write_bytes_getD_of_notin hk wp rest (i + 1) _ _ hnotin]
          have hzero : wp + i + 0 = wp + i := by omega
          rw [hzero]
          exact getD_set_self b (by rw [hlen]; exact Nat.mod_lt _ hpos)
      | succ m' =>
          have hadd : wp + i + (m' + 1) = wp + (i + 1) + m' := by omega
          rw [hadd, ih (i + 1) _ m' (by rw [List.length_set]; exact hlen)
            (by simp at hsz; omega) (by simpa using hm)]
          simp

/-- Length of the bytes returned by the read loop. -/
theorem read_bytes_length (rb : RingBuffer) (rp n : Nat) :
    (read_bytes rb rp n).length = n := by
  simp [read_bytes]

/-- The invariant holds right after subscribing. -/
theorem ring_inv_subscribe {k w0 : Nat} {rb : RingBuffer}
    (hcap : rb.capacity = 2 ^ k) (hk : k ≤ 64) (hmask : rb.mask = 2 ^ k - 1)
    (hlen : rb.buffer.length = 2 ^ k) (hwp : rb.write_pos = w0) (hw0 : w0 < USIZE) :
    RingInv k w0 (ring_subscribe rb) := by
  refine ⟨hcap, hk, hmask, hlen, by simpa using hw0, by simpa using hwp,
    by simpa [ring_subscribe] using hwp, by simp [ring_subscribe],
    by simp [ring_subscribe], ?_⟩
  intro j hj
  simp [ring_subscribe] at hj

/-- A producer write preserves the invariant, provided the reader does
not end up lagging. -/
theorem ring_inv_write {k w0 : Nat} {s : RingTrace} (data : List Nat)
    (inv : RingInv k w0 s)
    (hbound : w0 + s.written.length + data.length < USIZE)
    (hlag : s.written.length + data.length ≤ s.read_out.length + 2 ^ k) :
    RingInv k w0 (ring_step s (.write data)) := by
  have hsz : data.length ≤ 2 ^ k := by
    have h1 := inv.tr_le
    omega
  refine ⟨?_, inv.k_le, ?_, ?_, ?_, ?_, ?_, ?_, ?_, ?_⟩
  · simpa [ring_step, RingBuffer.write] using inv.cap_eq
  · simpa [ring_step, RingBuffer.write] using inv.mask_eq
  · simp only [ring_step, RingBuffer.write]
    rw [write_bytes_length]
    exact inv.len_eq
  · simp only [ring_step, List.length_append]
    omega
  · simp only [ring_step, RingBuffer.write, List.length_append]
    rw [inv.wp_eq, Nat.mod_eq_of_lt (by omega)]
    omega
  · simpa [ring_step] using inv.rp_eq
  · have h1 := inv.tr_le
    simp only [ring_step, List.length_append]
    omega
  · simp only [ring_step]
    rw [List.take_append_of_le_length inv.tr_le]
    exact inv.out_eq
  · intro j hj hwin
    simp only [ring_step, RingBuffer.write, List.length_append] at hj hwin ⊢
    rw [inv.mask_eq, inv.wp_eq]
    rcases Nat.lt_or_ge j s.written.length with hcase | hcase
    · have hnotin : ∀ m, m < data.length →
          (w0 + s.written.length + 0 + m) % 2 ^ k ≠ (w0 + j) % 2 ^ k := by
        intro m hm
        have hadd : w0 + s.written.length + 0 + m =
            (w0 + j) + (s.written.length + m - j) := by omega
        rw [hadd]
        apply add_mod_ne
        · omega
        · omega
      rw [write_bytes_getD_of_notin inv.k_le _ data 0 _ _ hnotin]
      rw [List.getD_append _ _ _ _ hcase]
      exact inv.contents j hcase (by omega)
    · have hhit := write_bytes_getD_of_hit inv.k_le s.rb.write_pos data 0 s.rb.buffer
        (j - s.written.length) inv.len_eq hsz (by omega)
      rw [inv.wp_eq] at hhit
      have hadd : w0 + s.written.length + 0 + (j - s.written.length) = w0 + j := by
        omega
      rw [hadd] at hhit
      rw [hhit, List.getD_append_right _ _ _ _ hcase]

/-- A reader read preserves the invariant: the bytes it returns are
exactly the next unread bytes of the written stream. -/
theorem ring_inv_read {k w0 : Nat} {s : RingTrace} (len : Nat)
    (inv : RingInv k w0 s)
    (hlag : s.written.length ≤ s.read_out.length + 2 ^ k) :
    RingInv k w0 (ring_step s (.read len)) := by
  have htr := inv.tr_le
  have hbound := inv.bound
  have havail : wrapping_sub s.rb.write_pos s.read_pos =
      s.written.length - s.read_out.length := by
    rw [inv.wp_eq, inv.rp_eq, wrapping_sub_eq (by omega) inv.bound]
    omega
  have hn_le : min (min len (s.written.length - s.read_out.length)) (2 ^ k) ≤
      s.written.length - s.read_out.length := by omega
  refine ⟨?_, inv.k_le, ?_, ?_, ?_, ?_, ?_, ?_, ?_, ?_⟩
  · simpa [ring_step] using inv.cap_eq
  · simpa [ring_step] using inv.mask_eq
  · simpa [ring_step] using inv.len_eq
  · simpa [ring_step] using inv.bound
  · simpa [ring_step] using inv.wp_eq
  · simp only [ring_step, RingBuffer.read, havail, inv.cap_eq, read_bytes_length,
      List.length_append]
    rw [inv.rp_eq, Nat.mod_eq_of_lt (by omega)]
    omega
  · simp only [ring_step, RingBuffer.read, havail, inv.cap_eq, read_bytes_length,
      List.length_append]
    omega
  · simp only [ring_step, RingBuffer.read, havail, inv.cap_eq, read_bytes_length,
      List.length_append]
    rw [List.take_add, ← inv.out_eq]
    congr 1
    set n := min (min len (s.written.length - s.read_out.length)) (2 ^ k) with hn
    apply List.ext_getElem
    · rw [read_bytes_length, List.length_take, List.length_drop]
      omega
    · intro i h₁ h₂
      rw [read_bytes_length] at h₁
      have hi_lt : s.read_out.length + i < s.written.length := by omega
      have hup : (read_bytes s.rb s.read_pos n)[i] =
          s.rb.buffer.getD (((s.read_pos + i) % USIZE) &&& s.rb.mask) 0 := by
        simp only [read_bytes, List.getElem_map, List.getElem_range]
      rw [hup, inv.mask_eq, mask_mod inv.k_le, inv.rp_eq]
      have hcont := inv.contents (s.read_out.length + i) hi_lt (by omega)
      have hadd : w0 + s.read_out.length + i = w0 + (s.read_out.length + i) := by omega
      rw [hadd, hcont]
      rw [List.getD_eq_getElem _ 0 hi_lt]
      simp [List.getElem_take, List.getElem_drop]
  · intro j hj hwin
    simp only [ring_step] at hj hwin ⊢
    exact inv.contents j hj hwin

/-- Running a session preserves the invariant as long as the reader
never lags and positions do not wrap. -/
theorem ring_run_inv {k w0 : Nat} :
    ∀ (ops : List RingOp) (s : RingTrace),
      RingInv k w0 s →
      s.written.length ≤ s.read_out.length + 2 ^ k →
      w0 + s.written.length + total_written ops < USIZE →
      no_lag_along s ops = true →
      RingInv k w0 (ring_run s ops) := by
  intro ops
  induction ops with
  | nil => intro s inv _ _ _; exact inv
  | cons op ops ih =>
      intro s inv hlag hbound hnl
      rw [no_lag_along, Bool.and_eq_true, decide_eq_true_eq] at hnl
      obtain ⟨hstep, hrest⟩ := hnl
      rw [ring_run]
      cases op with
      | write data =>
          have hb : w0 + s.written.length + data.length < USIZE := by
            rw [total_written] at hbound
            omega
          have hlag2 : s.written.length + data.length ≤ s.read_out.length + 2 ^ k := by
            have hwp : (s.rb.write data).write_pos =
                w0 + (s.written.length + data.length) := by
              simp only [RingBuffer.write]
              rw [inv.wp_eq, Nat.mod_eq_of_lt (by omega)]
              omega
            have hws : wrapping_sub (ring_step s (.write data)).rb.write_pos
                (ring_step s (.write data)).read_pos =
                s.written.length + data.length - s.read_out.length := by
              simp only [ring_step]
              rw [hwp, inv.rp_eq,
                wrapping_sub_eq (by have := inv.tr_le; omega) (by omega)]
              omega
            rw [hws] at hstep
            simp only [ring_step, RingBuffer.write, inv.cap_eq] at hstep
            have := inv.tr_le
            omega
          have inv2 := ring_inv_write data inv hb hlag2
          apply ih _ inv2
          · simpa [ring_step] using hlag2
          · simp only [ring_step, List.length_append]
            rw [total_written] at hbound
            omega
          · exact hrest
      | read len =>
          have inv2 := ring_inv_read len inv hlag
          apply ih _ inv2
          · simp only [ring_step, List.length_append]
            omega
          · simp only [ring_step]
            rw [total_written] at hbound
            exact hbound
          · exact hrest

/-- The doubling loop only ever produces powers of two. -/
theorem next_pow_two_go_pow (n : Nat) :
    ∀ (fuel power : Nat), (∃ j, power = 2 ^ j) →
      ∃ j, next_pow_two_go n fuel power = 2 ^ j := by
  intro fuel
  induction fuel with
  | zero => intro power h; exact h
  | succ fuel ih =>
      intro power h
      rw [next_pow_two_go]
      by_cases hp : power < n
      · simp only [hp, if_true]
        obtain ⟨j, rfl⟩ := h
        exact ih (2 ^ j * 2) ⟨j + 1, by rw [pow_succ]⟩
      · simpa [hp] using h

/-- Given enough fuel, the doubling loop reaches `n`. -/
theorem next_pow_two_go_ge (n : Nat) :
    ∀ (fuel power : Nat), n ≤ power * 2 ^ fuel →
      n ≤ next_pow_two_go n fuel power := by
  intro fuel
  induction fuel with
  | zero => intro power h; simpa using h
  | succ fuel ih =>
      intro power h
      rw [next_pow_two_go]
      by_cases hp : power < n
      · simp only [hp, if_true]
        exact ih (power * 2) (by rw [pow_succ] at h; exact le_of_le_of_eq h (by ring))
      · simp only [hp, if_false]
        omega

/-- The doubling loop never overshoots a power of two that already
bounds `n`. -/
theorem next_pow_two_go_le (n : Nat) {m : Nat} :
    ∀ (fuel power : Nat), (∃ j, power = 2 ^ j) → n ≤ 2 ^ m → power ≤ 2 ^ m →
      next_pow_two_go n fuel power ≤ 2 ^ m := by
  intro fuel
  induction fuel with
  | zero => intro power _ _ hpm; simpa using hpm
  | succ fuel ih =>
      intro power hpow hnm hpm
      rw [next_pow_two_go]
      by_cases hp : power < n
      · simp only [hp, if_true]
        obtain ⟨j, rfl⟩ := hpow
        have hjm : j < m := by
          rw [← Nat.pow_lt_pow_iff_right (show 1 < 2 by omega)]
          omega
        refine ih (2 ^ j * 2) ⟨j + 1, by rw [pow_succ]⟩ hnm ?_
        rw [← pow_succ]
        exact Nat.pow_le_pow_right (by omega) hjm
      · simpa [hp] using hpm

/-- Characterization of `next_power_of_two`: it is a power of two, at
least `n`, and minimal among powers of two that are at least `n`. -/
theorem next_power_of_two_spec (n : Nat) :
    (∃ j, next_power_of_two n = 2 ^ j) ∧ n ≤ next_power_of_two n ∧
      ∀ m, n ≤ 2 ^ m → next_power_of_two n ≤ 2 ^ m := by
  refine ⟨next_pow_two_go_pow n n 1 ⟨0, rfl⟩, ?_, ?_⟩
  · exact next_pow_two_go_ge n n 1 (by have := Nat.lt_two_pow n; omega)
  · intro m hm
    exact next_pow_two_go_le n n 1 ⟨0, rfl⟩ hm Nat.one_le_two_pow

/-- C1: for a single-writer ring with a reader subscribed at the writer
position, as long as the reader never lags (writer − reader stays at
most `capacity` after every step, and positions do not wrap), the
concatenation of the bytes returned by its reads is a prefix of the
bytes written after subscribe; and in the literal capacity-8 scenario,
after writing [1,2,3,4,5,6], reading 4 bytes and writing [7,8,9,10],
the next 6-byte read returns exactly [5,6,7,8,9,10]. -/
theorem ring_reader_prefix_and_wraparound
    (k w0 : Nat) (rb : RingBuffer) (ops : List RingOp)
    (hcap : rb.capacity = 2 ^ k) (hk : k ≤ 64) (hmask : rb.mask = 2 ^ k - 1)
    (hlen : rb.buffer.length = 2 ^ k) (hwp : rb.write_pos = w0)
    (hbound : w0 + total_written ops < USIZE)
    (hnl : no_lag_along (ring_subscribe rb) ops = true) :
    ((ring_run (ring_subscribe rb) ops).read_out <+:
      (ring_run (ring_subscribe rb) ops).written)
    ∧ (let rb0 := RingBuffer.new 8
       let rb1 := rb0.write [1, 2, 3, 4, 5, 6]
       let first := rb1.read 4 rb0.write_position
       let rb2 := rb1.write [7, 8, 9, 10]
       (rb2.read 6 first.2).1 = [5, 6, 7, 8, 9, 10]) := by
  constructor
  · have inv0 : RingInv k w0 (ring_subscribe rb) :=
      ring_inv_subscribe hcap hk hmask hlen hwp (by omega)
    have inv := ring_run_inv ops (ring_subscribe rb) inv0
      (by simp [ring_subscribe])
      (by simpa [ring_subscribe] using hbound)
      hnl
    rw [inv.out_eq]
    exact List.take_prefix _ _
  · decide

/-- Closed witness for the hypotheses of the C1 theorem: the literal
capacity-8 session, which never lags. -/
theorem ring_reader_prefix_and_wraparound_witness :
    ((ring_run (ring_subscribe (RingBuffer.new 8))
        [RingOp.write [1, 2, 3, 4, 5, 6], RingOp.read 4,
          RingOp.write [7, 8, 9, 10], RingOp.read 6]).read_out <+:
      (ring_run (ring_subscribe (RingBuffer.new 8))
        [RingOp.write [1, 2, 3, 4, 5, 6], RingOp.read 4,
          RingOp.write [7, 8, 9, 10], RingOp.read 6]).written)
    ∧ (let rb0 := RingBuffer.new 8
       let rb1 := rb0.write [1, 2, 3, 4, 5, 6]
       let first := rb1.read 4 rb0.write_position
       let rb2 := rb1.write [7, 8, 9, 10]
       (rb2.read 6 first.2).1 = [5, 6, 7, 8, 9, 10]) :=
  ring_reader_prefix_and_wraparound 3 0 (RingBuffer.new 8)
    [RingOp.write [1, 2, 3, 4, 5, 6], RingOp.read 4,
      RingOp.write [7, 8, 9, 10], RingOp.read 6]
    (by decide) (by decide) (by decide) (by decide) (by decide)
    (by decide) (by decide)

/-- C2: the constructed capacity is `next_power_of_two(requested)` (a
power of two, at least the request, and minimal such) with
`mask = capacity - 1`; `read` returns
`n = min(|dst|, writer − r, capacity)` bytes and advances the reader
position by exactly `n` (zero when there is no new data);
`available(r) = min(writer − r, capacity)`; `is_lagging(r)` holds
exactly when `writer − r > capacity`; `catch_up` yields the writer
position. -/
theorem ring_position_arithmetic
    (requested : Nat) (rb : RingBuffer) (buf_len read_pos : Nat)
    (hr : read_pos ≤ rb.write_pos) (hw : rb.write_pos < USIZE) :
    ((RingBuffer.new requested).capacity = next_power_of_two requested
      ∧ (RingBuffer.new requested).mask = (RingBuffer.new requested).capacity - 1
      ∧ (∃ j, (RingBuffer.new requested).capacity = 2 ^ j)
      ∧ requested ≤ (RingBuffer.new requested).capacity
      ∧ ∀ m, requested ≤ 2 ^ m → (RingBuffer.new requested).capacity ≤ 2 ^ m)
    ∧ (rb.read buf_len read_pos).1.length =
        min (min buf_len (rb.write_pos - read_pos)) rb.capacity
    ∧ (rb.read buf_len read_pos).2 =
        read_pos + min (min buf_len (rb.write_pos - read_pos)) rb.capacity
    ∧ (rb.write_pos = read_pos → (rb.read buf_len read_pos).1.length = 0)
    ∧ rb.available read_pos = min (rb.write_pos - read_pos) rb.capacity
    ∧ (rb.is_lagging read_pos = true ↔ rb.capacity < rb.write_pos - read_pos)
    ∧ rb.catch_up = rb.write_pos := by
  obtain ⟨hpow, hge, hmin⟩ := next_power_of_two_spec requested
  have hsub := wrapping_sub_eq hr hw
  refine ⟨⟨rfl, rfl, hpow, hge, hmin⟩, ?_, ?_, ?_, ?_, ?_, rfl⟩
  · simp only [RingBuffer.read, hsub, read_bytes_length]
  · simp only [RingBuffer.read, hsub]
    rw [Nat.mod_eq_of_lt (by omega)]
  · intro heq
    simp only [RingBuffer.read, read_bytes_length]
    rw [heq, wrapping_sub_eq le_rfl (heq ▸ hw)]
    omega
  · simp only [RingBuffer.available, hsub]
  · simp only [RingBuffer.is_lagging, hsub, decide_eq_true_eq]

/-- Closed witness for the hypotheses of the C2 theorem: a concrete
ring holding three bytes, read from position 1 into a 2-byte buffer. -/
theorem ring_position_arithmetic_witness :
    (((RingBuffer.new 5).capacity = next_power_of_two 5
      ∧ (RingBuffer.new 5).mask = (RingBuffer.new 5).capacity - 1
      ∧ (∃ j, (RingBuffer.new 5).capacity = 2 ^ j)
      ∧ 5 ≤ (RingBuffer.new 5).capacity
      ∧ ∀ m, 5 ≤ 2 ^ m → (RingBuffer.new 5).capacity ≤ 2 ^ m)
    ∧ (((RingBuffer.new 8).write [1, 2, 3]).read 2 1).1.length =
        min (min 2 (((RingBuffer.new 8).write [1, 2, 3]).write_pos - 1))
          ((RingBuffer.new 8).write [1, 2, 3]).capacity
    ∧ (((RingBuffer.new 8).write [1, 2, 3]).read 2 1).2 =
        1 + min (min 2 (((RingBuffer.new 8).write [1, 2, 3]).write_pos - 1))
          ((RingBuffer.new 8).write [1, 2, 3]).capacity
    ∧ (((RingBuffer.new 8).write [1, 2, 3]).write_pos = 1 →
        (((RingBuffer.new 8).write [1, 2, 3]).read 2 1).1.length = 0)
    ∧ ((RingBuffer.new 8).write [1, 2, 3]).available 1 =
        min (((RingBuffer.new 8).write [1, 2, 3]).write_pos - 1)
          ((RingBuffer.new 8).write [1, 2, 3]).capacity
    ∧ (((RingBuffer.new 8).write [1, 2, 3]).is_lagging 1 = true ↔
        ((RingBuffer.new 8).write [1, 2, 3]).capacity <
          ((RingBuffer.new 8).write [1, 2, 3]).write_pos - 1)
    ∧ ((RingBuffer.new 8).write [1, 2, 3]).catch_up =
        ((RingBuffer.new 8).write [1, 2, 3]).write_pos) :=
  ring_position_arithmetic 5 ((RingBuffer.new 8).write [1, 2, 3]) 2 1
    (by decide) (by decide)

/-- Unfolding lookup over a cons cell. -/
theorem assoc_get_cons {κ α : Type} [DecidableEq κ] (p : κ × α) (m : List (κ × α))
    (id' : κ) :
    assoc_get (p :: m) id' = if p.1 = id' then some p.2 else assoc_get m id' := by
  by_cases h : p.1 = id'
  · rw [assoc_get, List.find?_cons_of_pos _ (by simp [h]), if_pos h]
    rfl
  · rw [assoc_get, List.find?_cons_of_neg _ (by simp [h]), if_neg h]
    rfl

/-- Unfolding removal over a cons cell. -/
theorem assoc_remove_cons {κ α : Type} [DecidableEq κ] (p : κ × α) (m : List (κ × α))
    (id : κ) :
    assoc_remove (p :: m) id =
      if p.1 = id then assoc_remove m id else p :: assoc_remove m id := by
  by_cases h : p.1 = id
  · rw [assoc_remove, List.filter_cons_of_neg (by simp [h]), if_pos h]
    rfl
  · rw [assoc_remove, List.filter_cons_of_pos (by simp [h]), if_neg h]
    rfl

/-- Unfolding in-place update over a cons cell. -/
theorem assoc_modify_cons {κ α : Type} [DecidableEq κ] (p : κ × α) (m : List (κ × α))
    (id : κ) (f : α → α) :
    assoc_modify (p :: m) id f =
      (if p.1 = id then (p.1, f p.2) else p) :: assoc_modify m id f := by
  rw [assoc_modify, List.map_cons]
  rfl

/-- Lookup after removal. -/
theorem assoc_get_remove {κ α : Type} [DecidableEq κ] (m : List (κ × α)) (id id' : κ) :
    assoc_get (assoc_remove m id) id' =
      if id' = id then none else assoc_get m id' := by
  induction m with
  | nil => simp [assoc_get, assoc_remove]
  | cons p m ih =>
      rw [assoc_remove_cons]
      by_cases hp : p.1 = id
      · rw [if_pos hp, ih, assoc_get_cons]
        by_cases hq : id' = id
        · rw [if_pos hq, if_pos hq]
        · rw [if_neg hq, if_neg hq, if_neg (by rw [hp]; exact fun h => hq h.symm)]
      · rw [if_neg hp, assoc_get_cons, assoc_get_cons, ih]
        by_cases hpq : p.1 = id'
        · have hq : ¬ id' = id := by rw [← hpq]; exact fun h => hp h
          rw [if_pos hpq, if_neg hq, if_pos hpq]
        · rw [if_neg hpq, if_neg hpq]

/-- Lookup after insertion. -/
theorem assoc_get_insert {κ α : Type} [DecidableEq κ] (m : List (κ × α)) (id id' : κ)
    (v : α) :
    assoc_get (assoc_insert m id v) id' =
      if id' = id then some v else assoc_get m id' := by
  rw [assoc_insert]
  have hsplit : ∀ (l₁ l₂ : List (κ × α)),
      assoc_get (l₁ ++ l₂) id' =
        ((assoc_get l₁ id').or (assoc_get l₂ id')) := by
    intro l₁ l₂
    rw [assoc_get, assoc_get, assoc_get, List.find?_append]
    cases List.find? (fun p => decide (p.1 = id')) l₁ <;> rfl
  rw [hsplit, assoc_get_remove]
  by_cases hq : id' = id
  · rw [if_pos hq, if_pos hq]
    simp [assoc_get, List.find?, hq]
  · rw [if_neg hq, if_neg hq]
    simp [assoc_get, List.find?, show ¬ id = id' from fun h => hq h.symm]

/-- Lookup after an in-place update. -/
theorem assoc_get_modify {κ α : Type} [DecidableEq κ] (m : List (κ × α)) (id id' : κ)
    (f : α → α) :
    assoc_get (assoc_modify m id f) id' =
      if id' = id then (assoc_get m id').map f else assoc_get m id' := by
  induction m with
  | nil => simp [assoc_get, assoc_modify]
  | cons p m ih =>
      rw [assoc_modify_cons]
      by_cases hp : p.1 = id
      · rw [if_pos hp, assoc_get_cons, assoc_get_cons]
        by_cases hq : id' = id
        · have hpq : p.1 = id' := by rw [hp, hq]
          rw [if_pos (by simpa using hpq), if_pos hq, if_pos hpq]
          rfl
        · have hpq : ¬ p.1 = id' := by rw [hp]; exact fun h => hq h.symm
          rw [if_neg (by simpa using hpq), if_neg hpq, ih, if_neg hq]
      · rw [if_neg hp, assoc_get_cons, assoc_get_cons, ih]
        by_cases hpq : p.1 = id'
        · have hq : ¬ id' = id := by rw [← hpq]; exact fun h => hp h
          rw [if_pos hpq, if_neg hq, if_pos hpq]
        · rw [if_neg hpq, if_neg hpq]

/-- The correction computed by `update_slave` is capped at
`MAX_CORRECTION_SAMPLES` in magnitude. -/
theorem correction_abs_le (d : Int) :
    |if DRIFT_THRESHOLD_SAMPLES < |d| then d.sign * min |d| MAX_CORRECTION_SAMPLES
      else 0| ≤ MAX_CORRECTION_SAMPLES := by
  rw [DRIFT_THRESHOLD_SAMPLES, MAX_CORRECTION_SAMPLES]
  by_cases h : (240 : Int) < |d|
  · rw [if_pos h]
    have hmin : min |d| (48 : Int) = 48 := min_eq_right (by omega)
    rw [hmin]
    rcases lt_trichotomy d 0 with hneg | hz | hpos
    · rw [Int.sign_eq_neg_one_iff_neg.mpr hneg]
      decide
    · rw [hz] at h
      simp at h
    · rw [Int.sign_eq_one_iff_pos.mpr hpos]
      decide
  · rw [if_neg h]
    decide

/-- A fresh `ClockSync` has all pending corrections bounded. -/
theorem pending_bounded_new (rate now : Nat) : pending_bounded (ClockSync.new rate now) := by
  intro id slave h
  simp [ClockSync.new, assoc_get] at h

/-- Every mutating operation keeps pending corrections bounded. -/
theorem pending_bounded_apply (s : ClockSync) (op : ClockOp)
    (h : pending_bounded s) : pending_bounded (clock_apply s op) := by
  cases op with
  | set_master id now => exact h
  | update_master pos now => exact h
  | remove_slave id =>
      intro id' sl' h'
      rw [clock_apply, ClockSync.remove_slave] at h'
      simp only at h'
      rw [assoc_get_remove] at h'
      by_cases hq : id' = id
      · rw [if_pos hq] at h'; exact absurd h' (by simp)
      · rw [if_neg hq] at h'; exact h id' sl' h'
  | register_slave id now =>
      rw [clock_apply, ClockSync.register_slave]
      by_cases hm : some id = s.master_id
      · rw [if_pos hm]; exact h
      · rw [if_neg hm]
        intro id' sl' h'
        simp only at h'
        rw [assoc_get_insert] at h'
        by_cases hq : id' = id
        · rw [if_pos hq] at h'
          cases h'
          show |(0 : Int)| ≤ MAX_CORRECTION_SAMPLES
          decide
        · rw [if_neg hq] at h'; exact h id' sl' h'
  | update_slave id pos now elapsed =>
      intro id' sl' h'
      rw [clock_apply, ClockSync.update_slave] at h'
      simp only at h'
      rw [assoc_get_modify] at h'
      by_cases hq : id' = id
      · subst hq
        rw [if_pos rfl] at h'
        cases hold : assoc_get s.slaves id' with
        | none => rw [hold] at h'; exact absurd h' (by simp)
        | some sl0 =>
            rw [hold] at h'
            simp only [Option.map_some', Option.some.injEq] at h'
            cases h'
            exact correction_abs_le _
      · rw [if_neg hq] at h'; exact h id' sl' h'
  | get_correction id =>
      intro id' sl' h'
      rw [clock_apply, ClockSync.get_correction] at h'
      cases hold : assoc_get s.slaves id with
      | none => simp only [hold] at h'; exact h id' sl' h'
      | some sl0 =>
          by_cases hp : sl0.pending_correction ≠ 0
          · simp only [hold, if_pos hp] at h'
            rw [assoc_get_modify] at h'
            by_cases hq : id' = id
            · subst hq
              rw [if_pos rfl, hold] at h'
              simp only [Option.map_some', Option.some.injEq] at h'
              cases h'
              show |(0 : Int)| ≤ MAX_CORRECTION_SAMPLES
              decide
            · rw [if_neg hq] at h'; exact h id' sl' h'
          · simp only [hold, if_neg hp] at h'
            exact h id' sl' h'
  | apply_correction id =>
      intro id' sl' h'
      rw [clock_apply, ClockSync.apply_correction] at h'
      cases hold : assoc_get s.slaves id with
      | none => simp only [hold] at h'; exact h id' sl' h'
      | some sl0 =>
          by_cases hp : sl0.pending_correction ≠ 0
          · simp only [hold, if_pos hp] at h'
            rw [assoc_get_modify] at h'
            by_cases hq : id' = id
            · subst hq
              rw [if_pos rfl, hold] at h'
              simp only [Option.map_some', Option.some.injEq] at h'
              cases h'
              show |(0 : Int)| ≤ MAX_CORRECTION_SAMPLES
              decide
            · rw [if_neg hq] at h'; exact h id' sl' h'
          · simp only [hold, if_neg hp] at h'
            exact h id' sl' h'

/-- Pending corrections stay bounded along every trace. -/
theorem pending_bounded_run :
    ∀ (ops : List ClockOp) (s : ClockSync), pending_bounded s →
      pending_bounded (clock_run s ops) := by
  intro ops
  induction ops with
  | nil => intro s h; exact h
  | cons op ops ih => intro s h; exact ih _ (pending_bounded_apply s op h)

/-- In a state with bounded pending corrections, `get_correction`
never returns more than `MAX_CORRECTION_SAMPLES` in magnitude. -/
theorem get_correction_abs_le (s : ClockSync) (id : String)
    (h : pending_bounded s) :
    |(s.get_correction id).1| ≤ MAX_CORRECTION_SAMPLES := by
  rw [ClockSync.get_correction]
  cases hold : assoc_get s.slaves id with
  | none =>
      simp only
      show |(0 : Int)| ≤ MAX_CORRECTION_SAMPLES
      decide
  | some sl =>
      simp only
      by_cases hp : sl.pending_correction ≠ 0
      · rw [if_pos hp]
        exact h id sl hold
      · rw [if_neg hp]
        exact h id sl hold

/-- C3: for a registered slave, `update_slave` stores the new position,
the 7/8-smoothed drift `(7·drift + (actual − elapsed)) / 8` (truncating
division, wrap-safe movement), and a pending correction of
`sign(drift) · min(|drift|, 48)` exactly when `|drift| > 240`;
`get_correction` returns the pending correction once, subtracts it from
the tracked drift and clears it; and along every trace the returned
correction magnitude never exceeds 48 samples. -/
theorem clock_update_slave_and_get_correction
    (s : ClockSync) (device_id : String) (position now : Nat) (elapsed_samples : Int)
    (slave : SlaveState) (rate now0 : Nat) (ops : List ClockOp) (probe_id : String)
    (h : assoc_get s.slaves device_id = some slave) :
    (assoc_get (s.update_slave device_id position now elapsed_samples).slaves device_id =
      some
        (let drift := (7 * slave.drift_samples +
            (to_i64 (wrapping_sub position slave.last_position) - elapsed_samples)).tdiv 8
         { last_position := position
           drift_samples := drift
           last_sync := now
           pending_correction :=
             if 240 < |drift| then drift.sign * min |drift| 48 else 0 }))
    ∧ (s.get_correction device_id).1 = slave.pending_correction
    ∧ assoc_get (s.get_correction device_id).2.slaves device_id =
        some { slave with
          drift_samples := slave.drift_samples - slave.pending_correction
          pending_correction := 0 }
    ∧ |((clock_run (ClockSync.new rate now0) ops).get_correction probe_id).1| ≤ 48 := by
  refine ⟨?_, ?_, ?_, ?_⟩
  · rw [ClockSync.update_slave]
    simp only
    rw [assoc_get_modify, if_pos rfl, h, Option.map_some']
    have hmul : slave.drift_samples * 7 = 7 * slave.drift_samples := Int.mul_comm _ _
    rw [DRIFT_THRESHOLD_SAMPLES, MAX_CORRECTION_SAMPLES, hmul]
  · rw [ClockSync.get_correction]
    simp only [h]
    by_cases hp : slave.pending_correction ≠ 0
    · rw [if_pos hp]
    · rw [if_neg hp]
  · rw [ClockSync.get_correction]
    by_cases hp : slave.pending_correction ≠ 0
    · simp only [h, if_pos hp]
      rw [assoc_get_modify, if_pos rfl, h, Option.map_some']
    · simp only [h, if_neg hp]
      push_neg at hp
      rw [hp, sub_zero, ← hp]
  · exact get_correction_abs_le _ _ (pending_bounded_run ops _ (pending_bounded_new rate now0))

/-- Closed witness for the C3 theorem: a freshly registered slave whose
reported position jumps 2000 samples ahead with no elapsed time, which
produces drift 250 and a capped pending correction of 48. -/
theorem clock_update_slave_and_get_correction_witness :
    (assoc_get ((((ClockSync.new 48000 0).set_master "m" 0).register_slave "a" 5).update_slave
        "a" 2000 9 0).slaves "a" =
      some
        (let drift := (7 * (0 : Int) + (to_i64 (wrapping_sub 2000 0) - 0)).tdiv 8
         { last_position := 2000
           drift_samples := drift
           last_sync := 9
           pending_correction :=
             if 240 < |drift| then drift.sign * min |drift| 48 else 0 }))
    ∧ ((((ClockSync.new 48000 0).set_master "m" 0).register_slave "a" 5).get_correction "a").1 =
        (0 : Int)
    ∧ assoc_get ((((ClockSync.new 48000 0).set_master "m" 0).register_slave "a" 5).get_correction
          "a").2.slaves "a" =
        some { last_position := 0
               drift_samples := (0 : Int) - 0
               last_sync := 5
               pending_correction := 0 }
    ∧ |((clock_run (ClockSync.new 48000 0)
          [ClockOp.register_slave "a" 0, ClockOp.update_slave "a" 2000 1 0]).get_correction
            "a").1| ≤ 48 :=
  clock_update_slave_and_get_correction
    (((ClockSync.new 48000 0).set_master "m" 0).register_slave "a" 5) "a" 2000 9 0
    { last_position := 0, drift_samples := 0, last_sync := 5, pending_correction := 0 }
    48000 0 [ClockOp.register_slave "a" 0, ClockOp.update_slave "a" 2000 1 0] "a"
    (by decide)

/-- C4 counterexample: the claim fails on API-reachable states.  If a
device is registered as a slave *before* `set_master` names it master,
it stays in the slave map, and `get_correction` on the master then
returns a nonzero correction (48 here, after a 2000-sample jump). -/
theorem clock_master_correction_counterexample :
    ((((ClockSync.new 48000 0).register_slave "a" 0).set_master "a" 0).update_slave
        "a" 2000 1 0).is_master "a" = true
    ∧ (((((ClockSync.new 48000 0).register_slave "a" 0).set_master "a" 0).update_slave
        "a" 2000 1 0).get_correction "a").1 = 48
    ∧ assoc_get ((((ClockSync.new 48000 0).register_slave "a" 0).set_master "a" 0).update_slave
        "a" 2000 1 0).slaves "a" ≠ none := by
  decide

/-- Traces without `set_master` preserve the master invariant. -/
theorem master_ok_run (m : String) :
    ∀ (ops : List ClockOp) (s : ClockSync), no_set_master ops = true →
      master_ok m s → master_ok m (clock_run s ops) := by
  intro ops
  induction ops with
  | nil => intro s _ h; exact h
  | cons op ops ih =>
      intro s hns h
      obtain ⟨h1, h2⟩ := h
      rw [clock_run]
      have hns2 : no_set_master ops = true := by
        cases op <;> simp [no_set_master] at hns ⊢ <;> exact hns
      refine ih _ hns2 ?_
      cases op with
      | set_master id now => simp [no_set_master] at hns
      | update_master pos now => exact ⟨h1, h2⟩
      | register_slave id now =>
          rw [clock_apply, ClockSync.register_slave]
          by_cases hm : some id = s.master_id
          · rw [if_pos hm]; exact ⟨h1, h2⟩
          · rw [if_neg hm]
            refine ⟨h1, ?_⟩
            simp only
            rw [assoc_get_insert]
            have hne : ¬ m = id := by
              intro hEq
              exact hm (hEq ▸ h1.symm)
            rw [if_neg hne]
            exact h2
      | remove_slave id =>
          refine ⟨h1, ?_⟩
          rw [clock_apply, ClockSync.remove_slave]
          simp only
          rw [assoc_get_remove]
          by_cases hq : m = id
          · rw [if_pos hq]
          · rw [if_neg hq]; exact h2
      | update_slave id pos now elapsed =>
          refine ⟨h1, ?_⟩
          rw [clock_apply, ClockSync.update_slave]
          simp only
          rw [assoc_get_modify]
          by_cases hq : m = id
          · rw [if_pos hq, h2]; rfl
          · rw [if_neg hq]; exact h2
      | get_correction id =>
          rw [clock_apply, ClockSync.get_correction]
          cases hold : assoc_get s.slaves id with
          | none => simp only [hold]; exact ⟨h1, h2⟩
          | some sl0 =>
              by_cases hp : sl0.pending_correction ≠ 0
              · simp only [hold, if_pos hp]
                refine ⟨h1, ?_⟩
                rw [assoc_get_modify]
                by_cases hq : m = id
                · rw [if_pos hq, h2]; rfl
                · rw [if_neg hq]; exact h2
              · simp only [hold, if_neg hp]
                exact ⟨h1, h2⟩
      | apply_correction id =>
          rw [clock_apply, ClockSync.apply_correction]
          cases hold : assoc_get s.slaves id with
          | none => simp only [hold]; exact ⟨h1, h2⟩
          | some sl0 =>
              by_cases hp : sl0.pending_correction ≠ 0
              · simp only [hold, if_pos hp]
                refine ⟨h1, ?_⟩
                rw [assoc_get_modify]
                by_cases hq : m = id
                · rw [if_pos hq, h2]; rfl
                · rw [if_neg hq]; exact h2
              · simp only [hold, if_neg hp]
                exact ⟨h1, h2⟩

/-- C4 (amended): under the engine's initialization discipline —
`set_master` called once on the fresh `ClockSync` before anything else
— every reachable state has exactly the one master `m`: `is_master`
holds precisely for `m`, the master is never in the slave map,
`register_slave` on the master's id is a no-op, and `get_correction`
applied to the master id returns 0 without changing the state. -/
theorem clock_single_master_discipline
    (rate now0 : Nat) (m : String) (now1 : Nat) (ops : List ClockOp)
    (probe_id : String) (now2 : Nat)
    (h : no_set_master ops = true) :
    ((clock_run ((ClockSync.new rate now0).set_master m now1) ops).is_master probe_id = true
      ↔ probe_id = m)
    ∧ assoc_get (clock_run ((ClockSync.new rate now0).set_master m now1) ops).slaves m = none
    ∧ (clock_run ((ClockSync.new rate now0).set_master m now1) ops).get_correction m =
        (0, clock_run ((ClockSync.new rate now0).set_master m now1) ops)
    ∧ (clock_run ((ClockSync.new rate now0).set_master m now1) ops).register_slave m now2 =
        clock_run ((ClockSync.new rate now0).set_master m now1) ops := by
  have hinit : master_ok m ((ClockSync.new rate now0).set_master m now1) :=
    ⟨rfl, by simp [ClockSync.new, ClockSync.set_master, assoc_get]⟩
  obtain ⟨h1, h2⟩ := master_ok_run m ops _ h hinit
  refine ⟨?_, h2, ?_, ?_⟩
  · rw [ClockSync.is_master, h1]
    simp [eq_comm]
  · rw [ClockSync.get_correction, h2]
  · rw [ClockSync.register_slave, h1, if_pos rfl]

/-- Closed witness for the C4 amended theorem: master "a", one slave
"b" that is updated and corrected. -/
theorem clock_single_master_discipline_witness :
    ((clock_run ((ClockSync.new 48000 0).set_master "a" 1)
        [ClockOp.register_slave "b" 2, ClockOp.update_slave "b" 480 3 0,
          ClockOp.get_correction "b"]).is_master "a" = true ↔ "a" = "a")
    ∧ assoc_get (clock_run ((ClockSync.new 48000 0).set_master "a" 1)
        [ClockOp.register_slave "b" 2, ClockOp.update_slave "b" 480 3 0,
          ClockOp.get_correction "b"]).slaves "a" = none
    ∧ (clock_run ((ClockSync.new 48000 0).set_master "a" 1)
        [ClockOp.register_slave "b" 2, ClockOp.update_slave "b" 480 3 0,
          ClockOp.get_correction "b"]).get_correction "a" =
        (0, clock_run ((ClockSync.new 48000 0).set_master "a" 1)
          [ClockOp.register_slave "b" 2, ClockOp.update_slave "b" 480 3 0,
            ClockOp.get_correction "b"])
    ∧ (clock_run ((ClockSync.new 48000 0).set_master "a" 1)
        [ClockOp.register_slave "b" 2, ClockOp.update_slave "b" 480 3 0,
          ClockOp.get_correction "b"]).register_slave "a" 4 =
        clock_run ((ClockSync.new 48000 0).set_master "a" 1)
          [ClockOp.register_slave "b" 2, ClockOp.update_slave "b" 480 3 0,
            ClockOp.get_correction "b"] :=
  clock_single_master_discipline 48000 0 "a" 1
    [ClockOp.register_slave "b" 2, ClockOp.update_slave "b" 480 3 0,
      ClockOp.get_correction "b"] "a" 4 (by decide)

/-- C5: when the monitor thread processes a `DefaultChanged` event with
render data flow naming endpoint `e`, it publishes `e` as the current
default, sends `Reinitialize` to the capture worker, sets the paused
flag of the adopted renderer whose id is `e`, leaves every other
renderer's paused flag unchanged, and emits `DefaultDeviceChanged`.
(The 100 ms receive timeout of the monitor loop is scheduling; the
embedding models the handling of one received event.) -/
theorem monitor_default_changed_pauses_new_default
    (st : MonitorShared) (flow role : Int) (e other_id : String)
    (hflow : flow = 0) (hother : other_id ≠ e) :
    (handle_device_event st (DeviceEvent.default_changed flow role e)).1.current_default_id
        = some e
    ∧ (handle_device_event st (DeviceEvent.default_changed flow role e)).2.1
        = [CaptureCommand.reinitialize]
    ∧ ((assoc_get st.renderer_controls e).isSome = true →
        assoc_get (handle_device_event st
          (DeviceEvent.default_changed flow role e)).1.renderer_controls e = some true)
    ∧ assoc_get (handle_device_event st
        (DeviceEvent.default_changed flow role e)).1.renderer_controls other_id
        = assoc_get st.renderer_controls other_id
    ∧ (handle_device_event st (DeviceEvent.default_changed flow role e)).2.2.2
        = [EngineEvent.default_device_changed] := by
  subst hflow
  simp only [handle_device_event, eq_self_iff_true, if_true]
  refine ⟨trivial, trivial, ?_, ?_, trivial⟩
  · intro hsome
    rw [assoc_get_modify, if_pos rfl]
    cases hold : assoc_get st.renderer_controls e with
    | none => rw [hold] at hsome; simp at hsome
    | some b => rfl
  · rw [assoc_get_modify, if_neg hother]

/-- Closed witness for the C5 theorem: two adopted renderers, the
default moves to "e". -/
theorem monitor_default_changed_pauses_new_default_witness :
    (handle_device_event (MonitorShared.mk none [("e", false), ("x", true)])
        (DeviceEvent.default_changed 0 0 "e")).1.current_default_id = some "e"
    ∧ (handle_device_event (MonitorShared.mk none [("e", false), ("x", true)])
        (DeviceEvent.default_changed 0 0 "e")).2.1 = [CaptureCommand.reinitialize]
    ∧ ((assoc_get (MonitorShared.mk none
          [("e", false), ("x", true)]).renderer_controls "e").isSome = true →
        assoc_get (handle_device_event (MonitorShared.mk none [("e", false), ("x", true)])
          (DeviceEvent.default_changed 0 0 "e")).1.renderer_controls "e" = some true)
    ∧ assoc_get (handle_device_event (MonitorShared.mk none [("e", false), ("x", true)])
        (DeviceEvent.default_changed 0 0 "e")).1.renderer_controls "x"
        = assoc_get (MonitorShared.mk none
            [("e", false), ("x", true)]).renderer_controls "x"
    ∧ (handle_device_event (MonitorShared.mk none [("e", false), ("x", true)])
        (DeviceEvent.default_changed 0 0 "e")).2.2.2
        = [EngineEvent.default_device_changed] :=
  monitor_default_changed_pauses_new_default
    (MonitorShared.mk none [("e", false), ("x", true)])
    0 0 "e" "x" rfl (by decide)

/-- C6: `start` while `Running` returns `AlreadyRunning` and leaves
the engine completely unchanged; `stop` while not `Running` succeeds
and changes nothing, so a second `stop` after a successful `stop` is a
no-op success. -/
theorem engine_start_stop_guards
    (e e2 : AudioEngine) (host : HostEnv)
    (h1 : e.state = EngineState.running) (h2 : e2.state ≠ EngineState.running) :
    e.start host = (Except.error WemuxError.already_running, e)
    ∧ e2.stop = (Except.ok (), e2)
    ∧ (e.stop).2.state = EngineState.stopped
    ∧ (e.stop).2.stop = (Except.ok (), (e.stop).2) := by
  have hstop_idem : ∀ f : AudioEngine, f.state ≠ EngineState.running →
      f.stop = (Except.ok (), f) := by
    intro f hf
    rw [AudioEngine.stop, if_pos hf]
  have hs : (e.stop).2.state = EngineState.stopped := by
    rw [AudioEngine.stop, if_neg (by simp [h1])]
  refine ⟨?_, hstop_idem e2 h2, hs, ?_⟩
  · rw [AudioEngine.start, if_pos h1]
  · exact hstop_idem _ (by rw [hs]; decide)

/-- Closed witness for the C6 theorem: a running engine and a fresh
(uninitialized) engine. -/
theorem engine_start_stop_guards_witness :
    ({ AudioEngine.new EngineConfig.default_config with
        state := EngineState.running } : AudioEngine).start
        { capture_format := none, all_devices := [], default_render_id := none }
      = (Except.error WemuxError.already_running,
          { AudioEngine.new EngineConfig.default_config with
            state := EngineState.running })
    ∧ (AudioEngine.new EngineConfig.default_config).stop
      = (Except.ok (), AudioEngine.new EngineConfig.default_config)
    ∧ (({ AudioEngine.new EngineConfig.default_config with
          state := EngineState.running } : AudioEngine).stop).2.state
        = EngineState.stopped
    ∧ (({ AudioEngine.new EngineConfig.default_config with
          state := EngineState.running } : AudioEngine).stop).2.stop
      = (Except.ok (),
          (({ AudioEngine.new EngineConfig.default_config with
            state := EngineState.running } : AudioEngine).stop).2) :=
  engine_start_stop_guards
    { AudioEngine.new EngineConfig.default_config with state := EngineState.running }
    (AudioEngine.new EngineConfig.default_config)
    { capture_format := none, all_devices := [], default_render_id := none }
    rfl (by decide)

/-- C7 counterexample: at 48 kHz stereo 32-bit float (block align 8),
engine start allocates the ring for 500 ms — 192000 bytes before
rounding — whereas the claimed `class_base + 25·N` sizing gives 325 ms
= 124800 bytes for a standard-class endpoint with one renderer; the
helper computing `class_base + 25·N` exists but is not consulted by
`start`. -/
theorem engine_ring_size_counterexample :
    ((((AudioEngine.new { EngineConfig.default_config with use_all_devices := true }).start
        (HostEnv.mk (some (AudioFormat.mk 48000 2 32 8))
          [get_device_info "id1".toList "Speakers".toList none] none)).2.buffer).map
        RingBuffer.capacity_fn) = some (next_power_of_two 192000)
    ∧ (AudioFormat.mk 48000 2 32 8).buffer_size_for_ms 500 = 192000
    ∧ (HardwareCapabilities.mk 50000 100000 LatencyClass.standard).optimal_ring_buffer_ms 1
        = 325
    ∧ (AudioFormat.mk 48000 2 32 8).buffer_size_for_ms 325 = 124800
    ∧ (192000 : Nat) ≠ 124800 := by
  refine ⟨rfl, rfl, rfl, rfl, by decide⟩

/-- C7 (amended): on every successful start the ring buffer is
allocated for a fixed 500 ms of audio at the capture format, rounded
up to a power of two — independent of latency class and renderer
count; the hardware-capabilities helper `optimal_ring_buffer_ms`
computes `class_base + 25·N` ms with class bases 200/300/400 ms, but
`start` does not call it. -/
theorem engine_ring_is_500ms_and_optimal_helper
    (e : AudioEngine) (host : HostEnv) (fmt : AudioFormat)
    (caps : HardwareCapabilities) (n : Nat)
    (h1 : e.state ≠ EngineState.running)
    (h2 : host.capture_format = some fmt)
    (h3 : (get_target_devices e.config host.all_devices).isEmpty = false) :
    (e.start host).2.buffer = some (RingBuffer.new (fmt.buffer_size_for_ms 500))
    ∧ (e.start host).1 = Except.ok ()
    ∧ caps.optimal_ring_buffer_ms n = caps.latency_class.ring_buffer_base_ms + 25 * n
    ∧ LatencyClass.ring_buffer_base_ms LatencyClass.low_latency = 200
    ∧ LatencyClass.ring_buffer_base_ms LatencyClass.standard = 300
    ∧ LatencyClass.ring_buffer_base_ms LatencyClass.high_latency = 400
    ∧ (RingBuffer.new (fmt.buffer_size_for_ms 500)).capacity =
        next_power_of_two (fmt.buffer_size_for_ms 500) := by
  have hrun : (e.start host).2.buffer = some (RingBuffer.new (fmt.buffer_size_for_ms 500))
      ∧ (e.start host).1 = Except.ok () := by
    rw [AudioEngine.start, if_neg h1, h2]
    simp only [h3, Bool.false_eq_true, if_false]
    refine ⟨?_, ?_⟩ <;> trivial
  refine ⟨hrun.1, hrun.2, ?_, rfl, rfl, rfl, rfl⟩
  rw [HardwareCapabilities.optimal_ring_buffer_ms, Nat.mul_comm]

/-- Closed witness for the C7 amended theorem, at the counterexample's
format and host. -/
theorem engine_ring_is_500ms_witness :
    (((AudioEngine.new { EngineConfig.default_config with use_all_devices := true }).start
        (HostEnv.mk (some (AudioFormat.mk 48000 2 32 8))
          [get_device_info "id1".toList "Speakers".toList none] none)).2.buffer
      = some (RingBuffer.new ((AudioFormat.mk 48000 2 32 8).buffer_size_for_ms 500)))
    ∧ (((AudioEngine.new { EngineConfig.default_config with use_all_devices := true }).start
        (HostEnv.mk (some (AudioFormat.mk 48000 2 32 8))
          [get_device_info "id1".toList "Speakers".toList none] none)).1 = Except.ok ())
    ∧ (HardwareCapabilities.mk 50000 100000 LatencyClass.standard).optimal_ring_buffer_ms 4
        = (HardwareCapabilities.mk 50000 100000
            LatencyClass.standard).latency_class.ring_buffer_base_ms + 25 * 4
    ∧ LatencyClass.ring_buffer_base_ms LatencyClass.low_latency = 200
    ∧ LatencyClass.ring_buffer_base_ms LatencyClass.standard = 300
    ∧ LatencyClass.ring_buffer_base_ms LatencyClass.high_latency = 400
    ∧ (RingBuffer.new ((AudioFormat.mk 48000 2 32 8).buffer_size_for_ms 500)).capacity =
        next_power_of_two ((AudioFormat.mk 48000 2 32 8).buffer_size_for_ms 500) :=
  engine_ring_is_500ms_and_optimal_helper
    (AudioEngine.new { EngineConfig.default_config with use_all_devices := true })
    (HostEnv.mk (some (AudioFormat.mk 48000 2 32 8))
      [get_device_info "id1".toList "Speakers".toList none] none)
    (AudioFormat.mk 48000 2 32 8)
    (HardwareCapabilities.mk 50000 100000 LatencyClass.standard) 4
    (by decide) rfl (by decide)

/-- The code's keyword match implies the specification's keyword
match: four keywords coincide, and a name containing the code's
"intel(r) display audio" also contains the spec set's
"display audio". -/
theorem code_keyword_implies_spec_keyword (name : List Char)
    (h : HdmiFilter.is_hdmi_device name = true) :
    (SPEC_HDMI_KEYWORDS.any fun keyword => decide (keyword <:+: lowercase name)) = true := by
  rw [HdmiFilter.is_hdmi_device, List.any_eq_true] at h
  rw [List.any_eq_true]
  obtain ⟨kw, hkw, hinf⟩ := h
  rw [decide_eq_true_eq] at hinf
  simp only [HDMI_KEYWORDS, List.mem_cons, List.not_mem_nil, or_false] at hkw
  rcases hkw with h1 | h2 | h3 | h4 | h5
  · exact ⟨"hdmi".toList, by simp [SPEC_HDMI_KEYWORDS],
      by rw [decide_eq_true_eq]; exact h1 ▸ hinf⟩
  · exact ⟨"nvidia high definition audio".toList, by simp [SPEC_HDMI_KEYWORDS],
      by rw [decide_eq_true_eq]; exact h2 ▸ hinf⟩
  · refine ⟨"display audio".toList, by simp [SPEC_HDMI_KEYWORDS], ?_⟩
    rw [decide_eq_true_eq]
    exact List.IsInfix.trans (by decide) (h3 ▸ hinf)
  · exact ⟨"amd high definition audio".toList, by simp [SPEC_HDMI_KEYWORDS],
      by rw [decide_eq_true_eq]; exact h4 ▸ hinf⟩
  · exact ⟨"display audio".toList, by simp [SPEC_HDMI_KEYWORDS],
      by rw [decide_eq_true_eq]; exact h5 ▸ hinf⟩

/-- C8: with `use_all_devices = false` and no explicit allow-list,
every adopted endpoint satisfies the specification's adoption
condition: its lowercased name contains a member of the spec keyword
set, or its lowercased id contains "hdmi" or "display".  (The spec's
"intel display audio" keyword and the code's "intel(r) display audio"
keyword are interchangeable here because both contain
"display audio".) -/
theorem hdmi_adoption_matches_spec_keywords
    (cfg : EngineConfig) (all_devices : List DeviceInfo) (d : DeviceInfo)
    (hall : cfg.use_all_devices = false) (hids : cfg.device_ids = none)
    (hwf : ∀ d', d' ∈ all_devices →
      d'.is_hdmi = (HdmiFilter.is_hdmi_device d'.name || HdmiFilter.is_hdmi_device_id d'.id))
    (hmem : d ∈ get_target_devices cfg all_devices) :
    spec_hdmi_adopted d = true := by
  have hdev : d ∈ (enumerate_hdmi_devices all_devices).toOption.getD [] := by
    cases hex : cfg.exclude_ids with
    | none =>
        simpa [get_target_devices, hids, hall, hex] using hmem
    | some excludes =>
        rw [get_target_devices, hids] at hmem
        simp only [hall, Bool.false_eq_true, if_false, hex] at hmem
        exact (List.mem_filter.mp hmem).1
  simp only [enumerate_hdmi_devices] at hdev
  by_cases hempty : (all_devices.filter (fun d' => d'.is_hdmi)).isEmpty = true
  · rw [if_pos hempty] at hdev
    simp [Except.toOption] at hdev
  · rw [if_neg hempty] at hdev
    simp only [Except.toOption, Option.getD] at hdev
    obtain ⟨hmem_all, hhd⟩ := List.mem_filter.mp hdev
    rw [hwf d hmem_all, Bool.or_eq_true] at hhd
    rw [spec_hdmi_adopted]
    rcases hhd with hname | hid
    · rw [code_keyword_implies_spec_keyword d.name hname]
      rfl
    · rw [HdmiFilter.is_hdmi_device_id, Bool.or_eq_true] at hid
      rcases hid with ha | hb
      · rw [ha]
        simp
      · rw [hb]
        simp

/-- Closed witness for the C8 theorem: the default configuration and a
single enumerated NVIDIA HDMI endpoint, which is adopted. -/
theorem hdmi_adoption_matches_spec_keywords_witness :
    spec_hdmi_adopted
      (get_device_info "dev1".toList "NVIDIA High Definition Audio".toList none) = true :=
  hdmi_adoption_matches_spec_keywords EngineConfig.default_config
    [get_device_info "dev1".toList "NVIDIA High Definition Audio".toList none]
    (get_device_info "dev1".toList "NVIDIA High Definition Audio".toList none)
    rfl rfl
    (by
      intro d' hd'
      rw [List.mem_singleton] at hd'
      subst hd'
      rfl)
    (by decide)

/-- C9: the published effective master volume is 0 when the default
endpoint is muted and the host's master-volume scalar otherwise;
applying a volume `v` multiplies every 32-bit float sample by `v`
whenever `v` is at least `f32::EPSILON` away from 1, and at `v = 1`
the early exit leaves the data bit-for-bit untouched (the scaling loop
is skipped). -/
theorem volume_effective_and_apply
    (t : VolumeTracker) (data : List Rat) (v : Rat)
    (hv : F32_EPSILON ≤ |v - 1|) :
    t.get_effective_volume = (if t.muted then 0 else t.master_volume_scalar)
    ∧ apply_volume_f32 data 1 = data
    ∧ apply_volume_f32 data v = data.map (fun sample => sample * v) := by
  refine ⟨rfl, ?_, ?_⟩
  · rw [apply_volume_f32, if_pos]
    rw [show (1 : Rat) - 1 = 0 by norm_num, abs_zero, F32_EPSILON]
    norm_num
  · rw [apply_volume_f32, if_neg (not_lt.mpr hv)]

/-- Closed witness for the C9 theorem: a muted tracker and halving the
volume of two samples. -/
theorem volume_effective_and_apply_witness :
    (VolumeTracker.mk true (1 / 2)).get_effective_volume =
      (if (VolumeTracker.mk true (1 / 2)).muted then 0
        else (VolumeTracker.mk true (1 / 2)).master_volume_scalar)
    ∧ apply_volume_f32 [2, 3] 1 = [2, 3]
    ∧ apply_volume_f32 [2, 3] (1 / 2) = ([2, 3] : List Rat).map (fun sample => sample * (1 / 2)) :=
  volume_effective_and_apply (VolumeTracker.mk true (1 / 2)) [2, 3] (1 / 2)
    (by rw [F32_EPSILON]; norm_num [abs_of_nonpos])

/-- C10: after `set v` a `get` returns `min 1 (max 0 v)` — the clamp of
`v` into [0,1] — so every value read from the master volume cell lies
in [0,1] even for out-of-range inputs, and the initial value is 1. -/
theorem volume_level_clamped (l : VolumeLevel) (v : Rat) :
    (l.set v).get = min 1 (max 0 v)
    ∧ 0 ≤ (l.set v).get
    ∧ (l.set v).get ≤ 1
    ∧ VolumeLevel.new.get = 1 := by
  have hval : (l.set v).get = clamp01 v := rfl
  have hclamp : clamp01 v = min 1 (max 0 v) := by
    rw [clamp01]
    split_ifs with h1 h2
    · rw [max_eq_left (le_of_lt h1)]
      norm_num
    · rw [max_eq_right (by linarith), min_eq_left (by linarith)]
    · rw [max_eq_right (not_lt.mp h1), min_eq_right (not_lt.mp h2)]
  refine ⟨hval.trans hclamp, ?_, ?_, rfl⟩
  · rw [hval, clamp01]
    split_ifs with h1 h2 <;> norm_num
    exact not_lt.mp h1
  · rw [hval, clamp01]
    split_ifs with h1 h2 <;> norm_num
    exact not_lt.mp h2
